import Mathlib

/-!
Verification development for the session-based co-occurrence recommender.

The repository has two pieces of logic:

* `get_ric_confidence_scores` (src/RIC_demo/run_ric_demo.py): a graph query
  that, given the tool just run, returns for every other tool the fraction of
  historical sessions containing the given tool that also contain that tool,
  sorted descending and capped at 10 rows.
* `UserSessionRecommender.update_recommendations`: decays the per-session
  weight vector by `alpha`, blends in the new confidence scores with factor
  `1 - alpha`, then returns the top 5 tools by weight excluding the tool just
  run.

The embedding below models the historical event graph as explicit lists of
Tool nodes and Job rows (a job carries its EXECUTED tool and its IN_SESSION
session), floats as rationals, and the pandas DataFrame of weights as an
association list from tool id to weight.  The pandas failure modes are
modelled explicitly:

* `pd.DataFrame([])` has no columns at all, so the
  `.set_index('recommendedTool')` call in `update_recommendations` raises a
  KeyError whenever the query returned no rows (before any weight mutation);
* `df.loc[tool, 'weight'] += x` first reads the row, so a tool missing from
  the weight index raises a KeyError inside the blend loop (after the decay
  and the preceding blend increments have already been written in place).
-/

/-- A Job node of the historical event graph together with its two outgoing
edges: `session` is the target of `IN_SESSION`, `tool` the target of
`EXECUTED`. -/
structure Job where
  id : String
  session : String
  tool : String

/-- The historical event graph as seen by the confidence query: the Tool
nodes and the Job rows. -/
structure Graph where
  tools : List String
  jobs : List Job

/-- The distinct sessions containing at least one job executing `toolId`
(the `COLLECT(DISTINCT s)` of the query). -/
def sessionsWith (g : Graph) (toolId : String) : List String :=
  ((g.jobs.filter (fun j => j.tool = toolId)).map Job.session).dedup

/-- The `count(DISTINCT s)` of the query: how many sessions of `S` contain a
job executing `t`. -/
def jointSessionCount (g : Graph) (S : List String) (t : String) : Nat :=
  (S.filter (fun s => g.jobs.any (fun j => j.session = s && j.tool = t))).length

/-- The distinct `otherTool` values matched by the query: tools (other than
the query tool, and present as Tool nodes) executed by some job of a session
in `S`. -/
def cooccurringTools (g : Graph) (S : List String) (lastToolId : String) : List String :=
  ((g.jobs.filter
      (fun j => decide (j.session ∈ S) && decide (j.tool ≠ lastToolId)
        && decide (j.tool ∈ g.tools))).map Job.tool).dedup

/-- Ordering used for `ORDER BY confidence_score DESC` and
`sort_values('weight', ascending=False)`: larger second component first. -/
def byDescScore (a b : String × ℚ) : Prop := b.2 ≤ a.2

instance : DecidableRel byDescScore := fun a b => inferInstanceAs (Decidable (b.2 ≤ a.2))

instance : IsTotal (String × ℚ) byDescScore := ⟨fun a b => le_total b.2 a.2⟩

instance : IsTrans (String × ℚ) byDescScore := ⟨fun _ _ _ h h' => le_trans h' h⟩

/-- The confidence query of `get_ric_confidence_scores`.  The first MATCH
requires a Tool node with the given id (an unknown tool produces no rows).
Each co-occurring tool scores `joint_session_count / last_tool_session_count`;
rows are ordered descending by score and limited to 10. -/
def get_ric_confidence_scores (g : Graph) (last_tool_id : String) :
    List (String × ℚ) :=
  if last_tool_id ∈ g.tools then
    let S := sessionsWith g last_tool_id
    ((cooccurringTools g S last_tool_id).map
      (fun t => (t, (jointSessionCount g S t : ℚ) / (S.length : ℚ)))).insertionSort
        byDescScore |>.take 10
  else []

/-- An error escaping `update_recommendations`. -/
inductive StepError where
  | store (msg : String)
  | setIndexKeyError
  | locKeyError (tool : String)
deriving DecidableEq

/-- The per-session weight DataFrame: an association list from tool id to
weight, in index order. -/
abbrev Weights := List (String × ℚ)

/-- The index of the weight DataFrame. -/
def keysOf (w : Weights) : List String := w.map Prod.fst

/-- Value of `weights.loc[t, 'weight']`: the first row labelled `t`, when
there is one. -/
def weightOf (w : Weights) (t : String) : Option ℚ :=
  (w.find? (fun p => decide (p.1 = t))).map Prod.snd

/-- The state of a `UserSessionRecommender`: the immutable decay factor and
the mutable weight DataFrame. -/
structure UserSessionRecommender where
  alpha : ℚ
  session_weights : Weights

/-- The constructor: every catalog tool starts at weight 0. -/
def newSession (all_tool_ids : List String) (alpha : ℚ) : UserSessionRecommender :=
  ⟨alpha, all_tool_ids.map (fun t => (t, 0))⟩

/-- The `.set_index('recommendedTool')` call on the queried DataFrame.  An
empty record list built an empty DataFrame with no columns, so pandas raises
a KeyError; otherwise the rows keep their order. -/
def set_index_recommendedTool (records : List (String × ℚ)) :
    Except StepError (List (String × ℚ)) :=
  if records.isEmpty then Except.error StepError.setIndexKeyError
  else Except.ok records

/-- The decay `self.session_weights['weight'] *= self.alpha`. -/
def decayAll (w : Weights) (alpha : ℚ) : Weights :=
  w.map (fun p => (p.1, p.2 * alpha))

/-- One blend write `self.session_weights.loc[t, 'weight'] += inc` on a label
known to be present (all rows labelled `t` are incremented). -/
def updateKey (w : Weights) (t : String) (inc : ℚ) : Weights :=
  w.map (fun p => if p.1 = t then (p.1, p.2 + inc) else p)

/-- The blend loop over the scored rows.  A scored tool missing from the
weight index makes the `.loc` read raise: the loop stops, returning the
weights mutated so far and the offending tool. -/
def blendLoop (alpha : ℚ) : Weights → List (String × ℚ) → Weights × Option String
  | w, [] => (w, none)
  | w, (t, c) :: rest =>
    if t ∈ keysOf w then blendLoop alpha (updateKey w t ((1 - alpha) * c)) rest
    else (w, some t)

/-- The blend loop's effect on the weights when no error interrupts it. -/
def blendFold (alpha : ℚ) (w : Weights) (scores : List (String × ℚ)) : Weights :=
  scores.foldl (fun acc p => updateKey acc p.1 ((1 - alpha) * p.2)) w

/-- Total confidence mass the scored rows assign to tool `t` (a tool absent
from the rows gets 0; the query emits each tool once, in which case this is
just its score). -/
def scoreSum (scores : List (String × ℚ)) (t : String) : ℚ :=
  ((scores.filter (fun p => decide (p.1 = t))).map Prod.snd).sum

/-- The tail of a successful step:
`self.session_weights.drop(last_tool_run, errors='ignore')` then
`sort_values('weight', ascending=False).head(5)`. -/
def topRecommendations (w : Weights) (last_tool_run : String) : List (String × ℚ) :=
  ((w.filter (fun p => decide (p.1 ≠ last_tool_run))).insertionSort byDescScore).take 5

/-- One `update_recommendations(last_tool_run)` call.  `scorer_result` is the
outcome of the store query (`Except.error` a raised store exception, which
propagates before any state is touched).  The returned pair is the recommender
state as left by the call (the Python object mutates in place, so a blend-time
KeyError leaves the partially mutated weights behind) and either the
recommendation rows or the error raised. -/
def update_recommendations (rec : UserSessionRecommender)
    (scorer_result : Except String (List (String × ℚ))) (last_tool_run : String) :
    UserSessionRecommender × Except StepError (List (String × ℚ)) :=
  match scorer_result with
  | Except.error e => (rec, Except.error (StepError.store e))
  | Except.ok records =>
    match set_index_recommendedTool records with
    | Except.error e => (rec, Except.error e)
    | Except.ok confidence_scores =>
      match blendLoop rec.alpha (decayAll rec.session_weights rec.alpha) confidence_scores with
      | (mutated, some badTool) =>
        (⟨rec.alpha, mutated⟩, Except.error (StepError.locKeyError badTool))
      | (blended, none) =>
        (⟨rec.alpha, blended⟩, Except.ok (topRecommendations blended last_tool_run))

/-- A finite sequence of step calls: each step feeds the state the previous
call left behind (also after a failed call, as the Python object survives the
exception). -/
def runSteps (rec : UserSessionRecommender)
    (steps : List (Except String (List (String × ℚ)) × String)) : UserSessionRecommender :=
  steps.foldl (fun r s => (update_recommendations r s.1 s.2).1) rec

/-! Helper lemmas about the weight DataFrame operations. -/

theorem keysOf_decayAll (w : Weights) (a : ℚ) : keysOf (decayAll w a) = keysOf w := by
  induction w with
  | nil => rfl
  | cons p rest ih =>
    simp only [keysOf, decayAll, List.map_cons] at ih ⊢
    rw [ih]

theorem keysOf_updateKey (w : Weights) (t : String) (inc : ℚ) :
    keysOf (updateKey w t inc) = keysOf w := by
  induction w with
  | nil => rfl
  | cons p rest ih =>
    by_cases h : p.1 = t <;> simp_all [keysOf, updateKey]

theorem keysOf_blendLoop (a : ℚ) (scores : List (String × ℚ)) (w : Weights) :
    keysOf (blendLoop a w scores).1 = keysOf w := by
  induction scores generalizing w with
  | nil => rfl
  | cons p rest ih =>
    obtain ⟨t, c⟩ := p
    by_cases h : t ∈ keysOf w
    · rw [blendLoop, if_pos h, ih, keysOf_updateKey]
    · rw [blendLoop, if_neg h]

theorem weightOf_decayAll (w : Weights) (a : ℚ) (t : String) :
    weightOf (decayAll w a) t = (weightOf w t).map (fun x => x * a) := by
  induction w with
  | nil => rfl
  | cons p rest ih =>
    by_cases h : p.1 = t <;> simp_all [weightOf, decayAll, List.find?_cons]

theorem weightOf_cons (p : String × ℚ) (rest : Weights) (t : String) :
    weightOf (p :: rest) t = if p.1 = t then some p.2 else weightOf rest t := by
  by_cases h : p.1 = t <;> simp [weightOf, List.find?_cons, h]

theorem updateKey_cons (p : String × ℚ) (rest : Weights) (s : String) (inc : ℚ) :
    updateKey (p :: rest) s inc
      = (if p.1 = s then (p.1, p.2 + inc) else p) :: updateKey rest s inc := rfl

theorem weightOf_updateKey_self (w : Weights) (t : String) (inc : ℚ) :
    weightOf (updateKey w t inc) t = (weightOf w t).map (fun x => x + inc) := by
  induction w with
  | nil => rfl
  | cons p rest ih =>
    rw [updateKey_cons, weightOf_cons, weightOf_cons]
    by_cases hpt : p.1 = t
    · simp [hpt]
    · simp [hpt, ih]

theorem weightOf_updateKey_other (w : Weights) (s : String) (inc : ℚ) (t : String)
    (hts : t ≠ s) :
    weightOf (updateKey w s inc) t = weightOf w t := by
  induction w with
  | nil => rfl
  | cons p rest ih =>
    rw [updateKey_cons, weightOf_cons, weightOf_cons]
    by_cases hps : p.1 = s
    · have hpt : ¬ p.1 = t := by rw [hps]; exact fun h => hts h.symm
      simp [hps, hpt, ih, hts.symm]
    · by_cases hpt : p.1 = t <;> simp [hps, hpt, ih, hts]

theorem weightOf_isSome_of_mem_keys (w : Weights) (t : String) (h : t ∈ keysOf w) :
    ∃ q, weightOf w t = some q := by
  induction w with
  | nil => simp [keysOf] at h
  | cons p rest ih =>
    by_cases hpt : p.1 = t
    · exact ⟨p.2, by simp [weightOf, List.find?_cons, hpt]⟩
    · have : t ∈ keysOf rest := by
        rcases (List.mem_cons).1 h with h' | h'
        · exact absurd h'.symm hpt
        · exact h'
      simpa [weightOf, List.find?_cons, hpt] using ih this

theorem blendLoop_weightOf_absent (a : ℚ) (scores : List (String × ℚ)) (t : String) :
    ∀ w : Weights, t ∉ scores.map Prod.fst →
      weightOf (blendLoop a w scores).1 t = weightOf w t := by
  induction scores with
  | nil => intro w _; rfl
  | cons p rest ih =>
    intro w ht
    obtain ⟨s, c⟩ := p
    have hts : t ≠ s := by intro h; exact ht (by simp [h])
    have ht' : t ∉ rest.map Prod.fst := fun h => ht (by simp [h])
    by_cases hmem : s ∈ keysOf w
    · rw [blendLoop, if_pos hmem, ih _ ht', weightOf_updateKey_other _ _ _ _ hts]
    · rw [blendLoop, if_neg hmem]

theorem blendLoop_ok (a : ℚ) (scores : List (String × ℚ)) :
    ∀ w : Weights, (∀ p ∈ scores, p.1 ∈ keysOf w) →
      blendLoop a w scores = (blendFold a w scores, none) := by
  induction scores with
  | nil => intro w _; rfl
  | cons p rest ih =>
    intro w h
    obtain ⟨s, c⟩ := p
    have hmem : s ∈ keysOf w := h (s, c) (List.mem_cons_self _ _)
    rw [blendLoop, if_pos hmem]
    exact ih _ (fun q hq => by
      rw [keysOf_updateKey]; exact h q (List.mem_cons_of_mem _ hq))

theorem blendLoop_weightOf_present (a : ℚ) (scores : List (String × ℚ)) (t : String) :
    ∀ w : Weights, (∀ p ∈ scores, p.1 ∈ keysOf w) →
      weightOf (blendLoop a w scores).1 t
        = (weightOf w t).map (fun x => x + (1 - a) * scoreSum scores t) := by
  induction scores with
  | nil =>
    intro w _
    show weightOf w t = (weightOf w t).map (fun x => x + (1 - a) * scoreSum [] t)
    cases h : weightOf w t <;> simp [scoreSum]
  | cons p rest ih =>
    intro w h
    obtain ⟨s, c⟩ := p
    have hmem : s ∈ keysOf w := h (s, c) (List.mem_cons_self _ _)
    have h' : ∀ q ∈ rest, q.1 ∈ keysOf (updateKey w s ((1 - a) * c)) := by
      intro q hq; rw [keysOf_updateKey]; exact h q (List.mem_cons_of_mem _ hq)
    rw [blendLoop, if_pos hmem, ih _ h']
    by_cases hts : t = s
    · subst hts
      rw [weightOf_updateKey_self]
      have hsum : scoreSum ((t, c) :: rest) t = c + scoreSum rest t := by
        simp [scoreSum]
      rw [hsum]
      cases weightOf w t with
      | none => simp
      | some x => simp; ring
    · rw [weightOf_updateKey_other _ _ _ _ hts]
      have hsum : scoreSum ((s, c) :: rest) t = scoreSum rest t := by
        simp [scoreSum, Ne.symm hts]
      rw [hsum]

theorem blendLoop_failure (a : ℚ) (pre : List (String × ℚ)) (bad : String) (c : ℚ)
    (rest : List (String × ℚ)) :
    ∀ w : Weights, (∀ p ∈ pre, p.1 ∈ keysOf w) → bad ∉ keysOf w →
      blendLoop a w (pre ++ (bad, c) :: rest) = (blendFold a w pre, some bad) := by
  induction pre with
  | nil =>
    intro w _ hbad
    rw [List.nil_append, blendLoop, if_neg hbad]
    rfl
  | cons p pre' ih =>
    intro w h hbad
    obtain ⟨s, c'⟩ := p
    have hmem : s ∈ keysOf w := h (s, c') (List.mem_cons_self _ _)
    rw [List.cons_append, blendLoop, if_pos hmem]
    exact ih _ (fun q hq => by
        rw [keysOf_updateKey]; exact h q (List.mem_cons_of_mem _ hq))
      (by rw [keysOf_updateKey]; exact hbad)

/-! Helper lemmas about one `update_recommendations` call. -/

theorem update_recommendations_store_error (rec : UserSessionRecommender) (e : String)
    (last : String) :
    update_recommendations rec (Except.error e) last
      = (rec, Except.error (StepError.store e)) := rfl

theorem update_recommendations_no_rows (rec : UserSessionRecommender) (last : String) :
    update_recommendations rec (Except.ok []) last
      = (rec, Except.error StepError.setIndexKeyError) := rfl

theorem update_recommendations_rows (rec : UserSessionRecommender)
    (records : List (String × ℚ)) (last : String) (hne : records ≠ []) :
    update_recommendations rec (Except.ok records) last =
      match blendLoop rec.alpha (decayAll rec.session_weights rec.alpha) records with
      | (mutated, some badTool) =>
        (⟨rec.alpha, mutated⟩, Except.error (StepError.locKeyError badTool))
      | (blended, none) =>
        (⟨rec.alpha, blended⟩, Except.ok (topRecommendations blended last)) := by
  have h : set_index_recommendedTool records = Except.ok records := by
    rw [set_index_recommendedTool, if_neg]
    simp [hne]
  simp only [update_recommendations]
  rw [h]

theorem update_recommendations_ok_keys (rec : UserSessionRecommender)
    (records : List (String × ℚ)) (last : String) (hne : records ≠ [])
    (hkeys : ∀ p ∈ records, p.1 ∈ keysOf rec.session_weights) :
    update_recommendations rec (Except.ok records) last =
      (⟨rec.alpha, blendFold rec.alpha (decayAll rec.session_weights rec.alpha) records⟩,
        Except.ok (topRecommendations
          (blendFold rec.alpha (decayAll rec.session_weights rec.alpha) records) last)) := by
  rw [update_recommendations_rows rec records last hne]
  have hk : ∀ p ∈ records, p.1 ∈ keysOf (decayAll rec.session_weights rec.alpha) := by
    intro p hp; rw [keysOf_decayAll]; exact hkeys p hp
  rw [blendLoop_ok rec.alpha records _ hk]

theorem keysOf_update_recommendations (rec : UserSessionRecommender)
    (sres : Except String (List (String × ℚ))) (last : String) :
    keysOf (update_recommendations rec sres last).1.session_weights
      = keysOf rec.session_weights := by
  cases sres with
  | error e => rfl
  | ok records =>
    cases records with
    | nil => rfl
    | cons r rs =>
      rw [update_recommendations_rows rec (r :: rs) last (by simp)]
      rcases hbl : blendLoop rec.alpha (decayAll rec.session_weights rec.alpha) (r :: rs)
        with ⟨mw, opt⟩
      have hk := keysOf_blendLoop rec.alpha (r :: rs) (decayAll rec.session_weights rec.alpha)
      rw [hbl] at hk
      have hk' : keysOf mw = keysOf (decayAll rec.session_weights rec.alpha) := hk
      cases opt with
      | some bad =>
        show keysOf mw = keysOf rec.session_weights
        rw [hk', keysOf_decayAll]
      | none =>
        show keysOf mw = keysOf rec.session_weights
        rw [hk', keysOf_decayAll]

theorem keysOf_runSteps (steps : List (Except String (List (String × ℚ)) × String)) :
    ∀ rec : UserSessionRecommender,
      keysOf (runSteps rec steps).session_weights = keysOf rec.session_weights := by
  induction steps with
  | nil => intro rec; rfl
  | cons s rest ih =>
    intro rec
    have h : runSteps rec (s :: rest)
        = runSteps (update_recommendations rec s.1 s.2).1 rest := rfl
    rw [h, ih, keysOf_update_recommendations]

theorem update_rows_weights (rec : UserSessionRecommender)
    (records : List (String × ℚ)) (last : String) (hne : records ≠ []) :
    (update_recommendations rec (Except.ok records) last).1.session_weights
      = (blendLoop rec.alpha (decayAll rec.session_weights rec.alpha) records).1 := by
  rw [update_recommendations_rows rec records last hne]
  rcases hbl : blendLoop rec.alpha (decayAll rec.session_weights rec.alpha) records
    with ⟨mw, opt⟩
  cases opt <;> rfl

theorem keysOf_blendFold (a : ℚ) (scores : List (String × ℚ)) :
    ∀ w : Weights, keysOf (blendFold a w scores) = keysOf w := by
  induction scores with
  | nil => intro w; rfl
  | cons p rest ih =>
    intro w
    have h : blendFold a w (p :: rest)
        = blendFold a (updateKey w p.1 ((1 - a) * p.2)) rest := rfl
    rw [h, ih, keysOf_updateKey]

theorem last_not_mem_topRecommendations (w : Weights) (last : String) :
    last ∉ (topRecommendations w last).map Prod.fst := by
  intro hmem
  rcases List.mem_map.1 hmem with ⟨p, hp, hfst⟩
  have h1 : p ∈ (w.filter (fun q => decide (q.1 ≠ last))).insertionSort byDescScore :=
    List.mem_of_mem_take hp
  rw [List.mem_insertionSort] at h1
  have h2 := (List.mem_filter.1 h1).2
  simp only [decide_eq_true_eq] at h2
  exact h2 hfst

/-- C4: if the scorer's store query fails, the step call surfaces the store
error and the recommender state after the failed call equals the state before
it, entry for entry, so the caller can retry the same step. -/
theorem C4_store_failure_preserves_weights (rec : UserSessionRecommender)
    (e : String) (last : String) :
    (update_recommendations rec (Except.error e) last).1 = rec ∧
      (update_recommendations rec (Except.error e) last).2
        = Except.error (StepError.store e) :=
  ⟨rfl, rfl⟩

/-- C2, evaluated on the code: a step whose scorer returns no rows does NOT
succeed.  `pd.DataFrame([])` has no `recommendedTool` column, so the
`.set_index` call raises a KeyError before the decay: the step returns the
error, no weight is decayed and no recommendation list is produced. -/
theorem C2_empty_scorer_result_raises (rec : UserSessionRecommender) (last : String) :
    update_recommendations rec (Except.ok []) last
      = (rec, Except.error StepError.setIndexKeyError) := rfl

/-- C5: after any finite sequence of step calls the index of the weight
DataFrame is exactly the tool catalog the recommender was constructed with:
no catalog tool is ever absent and no key outside the catalog ever appears. -/
theorem C5_weight_vector_completeness (catalog : List String) (alpha : ℚ)
    (steps : List (Except String (List (String × ℚ)) × String)) :
    keysOf (runSteps (newSession catalog alpha) steps).session_weights = catalog := by
  rw [keysOf_runSteps]
  show keysOf (newSession catalog alpha).session_weights = catalog
  simp only [newSession, keysOf, List.map_map]
  exact List.map_id catalog

/-- C6: a step call that completes successfully never lists the tool passed
to it among the returned recommendation rows. -/
theorem C6_last_tool_excluded (rec : UserSessionRecommender)
    (sres : Except String (List (String × ℚ))) (last : String)
    (recs : List (String × ℚ))
    (h : (update_recommendations rec sres last).2 = Except.ok recs) :
    last ∉ recs.map Prod.fst := by
  cases sres with
  | error e => exact absurd h (by simp [update_recommendations_store_error])
  | ok records =>
    cases records with
    | nil => exact absurd h (by simp [update_recommendations_no_rows])
    | cons r rs =>
      rw [update_recommendations_rows rec (r :: rs) last (by simp)] at h
      rcases hbl : blendLoop rec.alpha (decayAll rec.session_weights rec.alpha) (r :: rs)
        with ⟨mw, opt⟩
      rw [hbl] at h
      cases opt with
      | some bad => exact absurd h (by simp)
      | none =>
        have hrecs : recs = topRecommendations mw last := by
          have := h
          simp only [Except.ok.injEq] at this
          exact this.symm
        rw [hrecs]
        exact last_not_mem_topRecommendations mw last

/-- C7 (amended): when a step's scorer result is non-empty and does not
mention tool `t`, the weight of `t` after the step is exactly `alpha` times
its weight before the step: a strict decrease when `alpha < 1` and the old
weight was positive, and no change when `alpha = 1` or the old weight was 0. -/
theorem C7_decay_monotonicity (rec : UserSessionRecommender)
    (records : List (String × ℚ)) (last t : String) (w0 : ℚ)
    (hne : records ≠ [])
    (ht : t ∉ records.map Prod.fst)
    (hw : weightOf rec.session_weights t = some w0) :
    weightOf (update_recommendations rec (Except.ok records) last).1.session_weights t
        = some (w0 * rec.alpha)
      ∧ (rec.alpha < 1 → 0 < w0 → w0 * rec.alpha < w0)
      ∧ (rec.alpha = 1 → w0 * rec.alpha = w0)
      ∧ (w0 = 0 → w0 * rec.alpha = w0) := by
  refine ⟨?_, fun ha hp => ?_, fun ha => by rw [ha, mul_one],
    fun h0 => by rw [h0, zero_mul]⟩
  · rw [update_rows_weights rec records last hne,
      blendLoop_weightOf_absent rec.alpha records t _ ht, weightOf_decayAll, hw]
    rfl
  · calc w0 * rec.alpha < w0 * 1 := mul_lt_mul_of_pos_left ha hp
      _ = w0 := mul_one w0

/-- C9: when the tool passed to `step` is not a key of the weight DataFrame,
a step with a well-formed non-empty scorer result still succeeds: the
`drop(..., errors='ignore')` removes nothing and the returned rows are the
top 5 of the entire catalog by descending weight. -/
theorem C9_unknown_last_tool (rec : UserSessionRecommender)
    (records : List (String × ℚ)) (last : String)
    (hlast : last ∉ keysOf rec.session_weights)
    (hne : records ≠ [])
    (hkeys : ∀ p ∈ records, p.1 ∈ keysOf rec.session_weights) :
    (update_recommendations rec (Except.ok records) last).2
      = Except.ok
          ((((update_recommendations rec (Except.ok records) last).1.session_weights).insertionSort
            byDescScore).take 5) := by
  rw [update_recommendations_ok_keys rec records last hne hkeys]
  have hkW : last ∉ keysOf (blendFold rec.alpha (decayAll rec.session_weights rec.alpha) records) := by
    rw [keysOf_blendFold, keysOf_decayAll]; exact hlast
  have hfil : (blendFold rec.alpha (decayAll rec.session_weights rec.alpha) records).filter
      (fun p => decide (p.1 ≠ last))
      = blendFold rec.alpha (decayAll rec.session_weights rec.alpha) records := by
    apply List.filter_eq_self.2
    intro p hp
    have : p.1 ∈ keysOf (blendFold rec.alpha (decayAll rec.session_weights rec.alpha) records) :=
      List.mem_map.2 ⟨p, hp, rfl⟩
    simp only [decide_eq_true_eq]
    intro hcontra
    exact hkW (hcontra ▸ this)
  simp only [topRecommendations, hfil]

/-- C10 (amended): a scorer result whose first tool missing from the weight
index is `bad` makes the step fail with the blend-time KeyError, and at the
point of failure the weights have already been decayed by `alpha` and the
blend increments of the rows before `bad` have been applied; the
all-or-nothing guarantee therefore only covers failures of the store query
itself (the mutated vector can even coincide with the pre-call one, e.g. for
`alpha = 1` with `bad` in the first row). -/
theorem C10_blend_failure_mutates (rec : UserSessionRecommender)
    (pre : List (String × ℚ)) (bad : String) (c : ℚ) (rest : List (String × ℚ))
    (last : String)
    (hpre : ∀ p ∈ pre, p.1 ∈ keysOf rec.session_weights)
    (hbad : bad ∉ keysOf rec.session_weights) :
    update_recommendations rec (Except.ok (pre ++ (bad, c) :: rest)) last
      = (⟨rec.alpha, blendFold rec.alpha (decayAll rec.session_weights rec.alpha) pre⟩,
        Except.error (StepError.locKeyError bad)) := by
  have hne : pre ++ (bad, c) :: rest ≠ [] := by simp
  rw [update_recommendations_rows rec _ last hne]
  have hpre' : ∀ p ∈ pre, p.1 ∈ keysOf (decayAll rec.session_weights rec.alpha) := by
    intro p hp; rw [keysOf_decayAll]; exact hpre p hp
  have hbad' : bad ∉ keysOf (decayAll rec.session_weights rec.alpha) := by
    rw [keysOf_decayAll]; exact hbad
  rw [blendLoop_failure rec.alpha pre bad c rest _ hpre' hbad']

/-! Helper lemmas about the confidence query. -/

theorem get_ric_eq (g : Graph) (last : String) (hlast : last ∈ g.tools) :
    get_ric_confidence_scores g last
      = (((cooccurringTools g (sessionsWith g last) last).map
          (fun t => (t, (jointSessionCount g (sessionsWith g last) t : ℚ)
            / ((sessionsWith g last).length : ℚ)))).insertionSort byDescScore).take 10 := by
  rw [get_ric_confidence_scores, if_pos hlast]

theorem mem_cooccurringTools (g : Graph) (S : List String) (last u : String) :
    u ∈ cooccurringTools g S last ↔
      ∃ j ∈ g.jobs, j.session ∈ S ∧ j.tool ≠ last ∧ j.tool ∈ g.tools ∧ j.tool = u := by
  rw [cooccurringTools, List.mem_dedup]
  constructor
  · intro h
    rcases List.mem_map.1 h with ⟨j, hj, hju⟩
    rcases List.mem_filter.1 hj with ⟨hjmem, hcond⟩
    simp only [Bool.and_eq_true, decide_eq_true_eq] at hcond
    exact ⟨j, hjmem, hcond.1.1, hcond.1.2, hcond.2, hju⟩
  · intro h
    rcases h with ⟨j, hjmem, hs, hne, htools, hju⟩
    refine List.mem_map.2 ⟨j, List.mem_filter.2 ⟨hjmem, ?_⟩, hju⟩
    simp only [Bool.and_eq_true, decide_eq_true_eq]
    exact ⟨⟨hs, hne⟩, htools⟩

theorem jointSessionCount_pos (g : Graph) (S : List String) (u : String)
    (h : ∃ j ∈ g.jobs, j.session ∈ S ∧ j.tool = u) :
    0 < jointSessionCount g S u := by
  rcases h with ⟨j, hj, hs, ht⟩
  rw [jointSessionCount]
  have hmem : j.session ∈ S.filter
      (fun s => g.jobs.any fun j' => j'.session = s && j'.tool = u) := by
    rw [List.mem_filter]
    exact ⟨hs, List.any_eq_true.2 ⟨j, hj, by simp [ht]⟩⟩
  exact List.length_pos.2 (List.ne_nil_of_mem hmem)

theorem jointSessionCount_le (g : Graph) (S : List String) (u : String) :
    jointSessionCount g S u ≤ S.length :=
  List.length_filter_le _ S

theorem mem_get_ric (g : Graph) (last : String) (p : String × ℚ)
    (hp : p ∈ get_ric_confidence_scores g last) :
    last ∈ g.tools ∧ p.1 ∈ cooccurringTools g (sessionsWith g last) last ∧
      p.2 = (jointSessionCount g (sessionsWith g last) p.1 : ℚ)
        / ((sessionsWith g last).length : ℚ) := by
  by_cases hlast : last ∈ g.tools
  · rw [get_ric_eq g last hlast] at hp
    have h1 := List.mem_of_mem_take hp
    rw [List.mem_insertionSort] at h1
    rcases List.mem_map.1 h1 with ⟨u, hu, hpu⟩
    refine ⟨hlast, ?_, ?_⟩
    · rw [← hpu]; exact hu
    · rw [← hpu]
  · rw [get_ric_confidence_scores, if_neg hlast] at hp
    cases hp

/-- C8: every confidence score the query returns lies in the closed unit
interval: a fraction of at most all the sessions containing the query tool. -/
theorem C8_scores_in_unit_interval (g : Graph) (last : String) (p : String × ℚ)
    (hp : p ∈ get_ric_confidence_scores g last) :
    0 ≤ p.2 ∧ p.2 ≤ 1 := by
  rcases mem_get_ric g last p hp with ⟨hlast, hco, hval⟩
  rcases (mem_cooccurringTools g (sessionsWith g last) last p.1).1 hco
    with ⟨j, hjmem, hs, _, _, hju⟩
  have hSne : 0 < (sessionsWith g last).length :=
    List.length_pos.2 (List.ne_nil_of_mem hs)
  have hn : (0 : ℚ) < ((sessionsWith g last).length : ℚ) := by
    exact_mod_cast hSne
  constructor
  · rw [hval]
    exact div_nonneg (by positivity) (le_of_lt hn)
  · rw [hval]
    rw [div_le_one hn]
    exact_mod_cast jointSessionCount_le g (sessionsWith g last) p.1

/-- C3: for a catalogued tool occurring in at least one historical session,
every returned row scores another tool `t` as `m(t)/n` (with `n` the number
of distinct sessions containing the query tool and `m(t)` the number of those
sessions also containing `t`), only co-occurring tools (`m(t) > 0`) appear,
the rows are sorted descending by score and capped at 10 (all co-occurring
tools appear when there are at most 10), and a repeated execution of a tool
inside one session never changes `m`. -/
theorem C3_confidence_query (g : Graph) (last : String)
    (hlast : last ∈ g.tools) (_hS : sessionsWith g last ≠ []) :
    (∀ p ∈ get_ric_confidence_scores g last,
        p.1 ≠ last ∧ 0 < jointSessionCount g (sessionsWith g last) p.1 ∧
          p.2 = (jointSessionCount g (sessionsWith g last) p.1 : ℚ)
            / ((sessionsWith g last).length : ℚ))
    ∧ (get_ric_confidence_scores g last).Pairwise byDescScore
    ∧ (get_ric_confidence_scores g last).length ≤ 10
    ∧ ((cooccurringTools g (sessionsWith g last) last).length ≤ 10 →
        ∀ u ∈ cooccurringTools g (sessionsWith g last) last,
          (u, (jointSessionCount g (sessionsWith g last) u : ℚ)
            / ((sessionsWith g last).length : ℚ)) ∈ get_ric_confidence_scores g last)
    ∧ (∀ jnew : Job, (∃ j' ∈ g.jobs, j'.session = jnew.session ∧ j'.tool = jnew.tool) →
        ∀ (S' : List String) (u : String),
          jointSessionCount ⟨g.tools, jnew :: g.jobs⟩ S' u = jointSessionCount g S' u) := by
  refine ⟨?_, ?_, ?_, ?_, ?_⟩
  · intro p hp
    rcases mem_get_ric g last p hp with ⟨_, hco, hval⟩
    rcases (mem_cooccurringTools g (sessionsWith g last) last p.1).1 hco
      with ⟨j, hjmem, hs, hne, _, hju⟩
    refine ⟨?_, jointSessionCount_pos g _ p.1 ⟨j, hjmem, hs, hju⟩, hval⟩
    rw [← hju]
    exact hne
  · rw [get_ric_eq g last hlast]
    exact List.Pairwise.sublist (List.take_sublist 10 _)
      (List.sorted_insertionSort byDescScore _)
  · rw [get_ric_eq g last hlast]
    exact List.length_take_le 10 _
  · intro hlen u hu
    rw [get_ric_eq g last hlast]
    have hlen2 : (((cooccurringTools g (sessionsWith g last) last).map
        (fun t => (t, (jointSessionCount g (sessionsWith g last) t : ℚ)
          / ((sessionsWith g last).length : ℚ)))).insertionSort byDescScore).length ≤ 10 := by
      rw [(List.perm_insertionSort byDescScore _).length_eq, List.length_map]
      exact hlen
    rw [List.take_of_length_le hlen2, List.mem_insertionSort]
    exact List.mem_map.2 ⟨u, hu, rfl⟩
  · intro jnew hdup S' u
    rw [jointSessionCount, jointSessionCount]
    congr 1
    apply List.filter_congr
    intro s _
    show ((jnew :: g.jobs).any fun j' => j'.session = s && j'.tool = u)
        = (g.jobs.any fun j' => j'.session = s && j'.tool = u)
    rw [List.any_cons]
    cases hq : (decide (jnew.session = s) && decide (jnew.tool = u)) with
    | false => rw [Bool.false_or]
    | true =>
      simp only [Bool.and_eq_true, decide_eq_true_eq] at hq
      rcases hdup with ⟨j', hj', hsess, htool⟩
      have hany : g.jobs.any (fun j'' => j''.session = s && j''.tool = u) = true :=
        List.any_eq_true.2 ⟨j', hj', by simp [hsess, htool, hq.1, hq.2]⟩
      rw [hany, Bool.true_or]

/-- Step 1 of the spec's scripted scenario: catalog {A, B, C, D}, alpha = 0.3,
the user runs A and the scorer returns [(B, 0.8), (C, 0.4)]. -/
def scenarioStep1 : UserSessionRecommender × Except StepError (List (String × ℚ)) :=
  update_recommendations (newSession ["A", "B", "C", "D"] (3/10))
    (Except.ok [("B", 8/10), ("C", 4/10)]) "A"

/-- Step 2 of the spec's scripted scenario: the user runs B and the scorer
returns [(A, 0.5), (D, 0.2)], applied to the state step 1 left behind. -/
def scenarioStep2 : UserSessionRecommender × Except StepError (List (String × ℚ)) :=
  update_recommendations scenarioStep1.1 (Except.ok [("A", 5/10), ("D", 2/10)]) "B"

/-- C1 (amended: the scorer result must be non-empty, since an empty result
makes the step fail in `set_index` before the decay): one step call first
multiplies every tool's weight by `alpha`, then adds `(1 - alpha) * c` for
each scored row `(t, c)` — tool `t` ends at `alpha * old + (1 - alpha) *`
(the score mass of `t`), and a tool absent from the scored rows keeps exactly
its decayed weight `alpha * old`; on the spec's two scripted steps the weight
vectors and returned rankings are exactly those the spec lists. -/
theorem C1_decay_then_blend :
    (∀ (rec : UserSessionRecommender) (records : List (String × ℚ))
        (last t : String) (w0 : ℚ),
      records ≠ [] →
      (∀ p ∈ records, p.1 ∈ keysOf rec.session_weights) →
      weightOf rec.session_weights t = some w0 →
      weightOf (update_recommendations rec (Except.ok records) last).1.session_weights t
        = some (w0 * rec.alpha + (1 - rec.alpha) * scoreSum records t))
    ∧ (∀ (rec : UserSessionRecommender) (records : List (String × ℚ))
        (last t : String) (w0 : ℚ),
      records ≠ [] →
      t ∉ records.map Prod.fst →
      weightOf rec.session_weights t = some w0 →
      weightOf (update_recommendations rec (Except.ok records) last).1.session_weights t
        = some (w0 * rec.alpha))
    ∧ scenarioStep1.1.session_weights = [("A", 0), ("B", 14/25), ("C", 7/25), ("D", 0)]
    ∧ scenarioStep1.2 = Except.ok [("B", 14/25), ("C", 7/25), ("D", 0)]
    ∧ scenarioStep2.1.session_weights
        = [("A", 7/20), ("B", 21/125), ("C", 21/250), ("D", 7/50)]
    ∧ scenarioStep2.2 = Except.ok [("A", 7/20), ("D", 7/50), ("C", 21/250)] := by
  refine ⟨?_, ?_, ?_, ?_, ?_, ?_⟩
  · intro rec records last t w0 hne hkeys hw
    rw [update_rows_weights rec records last hne]
    have hkeys' : ∀ p ∈ records, p.1 ∈ keysOf (decayAll rec.session_weights rec.alpha) := by
      intro p hp; rw [keysOf_decayAll]; exact hkeys p hp
    rw [blendLoop_weightOf_present rec.alpha records t _ hkeys', weightOf_decayAll, hw]
    rfl
  · intro rec records last t w0 hne ht hw
    rw [update_rows_weights rec records last hne,
      blendLoop_weightOf_absent rec.alpha records t _ ht, weightOf_decayAll, hw]
    rfl
  · simp [scenarioStep1, update_recommendations, set_index_recommendedTool,
      newSession, decayAll, blendLoop, updateKey, keysOf, topRecommendations, byDescScore]
    norm_num [byDescScore]
  · simp [scenarioStep1, update_recommendations, set_index_recommendedTool,
      newSession, decayAll, blendLoop, updateKey, keysOf, topRecommendations, byDescScore]
    norm_num [byDescScore]
  · simp [scenarioStep2, scenarioStep1, update_recommendations,
      set_index_recommendedTool, newSession, decayAll, blendLoop, updateKey, keysOf,
      topRecommendations, byDescScore]
    norm_num [byDescScore]
  · simp [scenarioStep2, scenarioStep1, update_recommendations,
      set_index_recommendedTool, newSession, decayAll, blendLoop, updateKey, keysOf,
      topRecommendations, byDescScore]
    norm_num [byDescScore]

/-- A small concrete historical graph: session s1 runs {A, B} and session s2
runs {A, B, C}. -/
def exampleGraph : Graph :=
  ⟨["A", "B", "C"],
   [⟨"j1", "s1", "A"⟩, ⟨"j2", "s1", "B"⟩, ⟨"j3", "s2", "A"⟩,
    ⟨"j4", "s2", "B"⟩, ⟨"j5", "s2", "C"⟩]⟩

/-- The original C1 is false at an empty scorer result (its tools lie in the
catalog vacuously): the step raises the set_index KeyError before the decay,
so the nonzero weight of A is NOT multiplied by alpha = 1/2. -/
theorem C1_counterexample :
    (update_recommendations ⟨1/2, [("A", 1)]⟩ (Except.ok []) "B").1.session_weights
        = [("A", 1)]
      ∧ (update_recommendations ⟨1/2, [("A", 1)]⟩ (Except.ok []) "B").2
        = Except.error StepError.setIndexKeyError
      ∧ ¬ weightOf (update_recommendations ⟨1/2, [("A", 1)]⟩
          (Except.ok []) "B").1.session_weights "A" = some (1 * (1/2 : ℚ)) :=
  ⟨rfl, rfl, fun h => absurd (Option.some.inj h) (by norm_num)⟩

/-- The original C7 is false when the tool's weight is already 0: alpha = 1/2
is below 1 and B is absent from the scored rows, yet B's weight before and
after the step is 0, which is not a strict decrease. -/
theorem C7_counterexample :
    weightOf ((⟨1/2, [("A", 0), ("B", 0)]⟩ : UserSessionRecommender).session_weights) "B"
        = some 0
      ∧ weightOf (update_recommendations ⟨1/2, [("A", 0), ("B", 0)]⟩
          (Except.ok [("A", 1)]) "A").1.session_weights "B" = some (0 * (1/2 : ℚ))
      ∧ ((1/2 : ℚ) < 1)
      ∧ ¬ ((0 : ℚ) * (1/2) < 0) := by
  refine ⟨rfl, ?_, by norm_num, by norm_num⟩
  simp [update_recommendations, set_index_recommendedTool, decayAll, blendLoop,
    updateKey, keysOf, weightOf, List.find?]

/-- The original C10's final clause is false: a blend-time failure can leave
the weights exactly equal to their nonzero pre-call values (alpha = 1 and the
offending tool in the first scored row). -/
theorem C10_counterexample :
    (update_recommendations ⟨1, [("A", 1)]⟩ (Except.ok [("Z", 1)]) "A").2
        = Except.error (StepError.locKeyError "Z")
      ∧ (update_recommendations ⟨1, [("A", 1)]⟩ (Except.ok [("Z", 1)]) "A").1.session_weights
        = [("A", 1)]
      ∧ weightOf [("A", (1 : ℚ))] "A" = some 1 ∧ (1 : ℚ) ≠ 0 := by
  refine ⟨?_, ?_, rfl, one_ne_zero⟩
  · simp [update_recommendations, set_index_recommendedTool, decayAll, blendLoop,
      updateKey, keysOf]
  · simp [update_recommendations, set_index_recommendedTool, decayAll, blendLoop,
      updateKey, keysOf]

/-- Witness: the confidence-query claim applied to the concrete graph. -/
theorem C3_confidence_query_witness :
    (get_ric_confidence_scores exampleGraph "A").length ≤ 10 :=
  (C3_confidence_query exampleGraph "A" (by decide) (by decide)).2.2.1

/-- Witness: a concrete successful step whose returned rows exclude the tool
just run. -/
theorem C6_last_tool_excluded_witness :
    "A" ∉ ([(("B" : String), (0 : ℚ))].map Prod.fst) :=
  C6_last_tool_excluded (newSession ["A", "B"] 1) (Except.ok [("A", 1)]) "A"
    [("B", 0)]
    (by simp [update_recommendations, set_index_recommendedTool, newSession,
      decayAll, blendLoop, updateKey, keysOf, topRecommendations, byDescScore])

/-- Witness: the decay claim applied at a concrete step. -/
theorem C7_decay_monotonicity_witness :
    weightOf (update_recommendations (newSession ["A", "B"] 1)
        (Except.ok [("A", 1)]) "C").1.session_weights "B" = some (0 * (1 : ℚ)) :=
  (C7_decay_monotonicity (newSession ["A", "B"] 1) [("A", 1)] "C" "B" 0
    (by decide) (by decide) (by decide)).1

/-- Witness: the score-bounds claim applied to a concrete returned row. -/
theorem C8_scores_in_unit_interval_witness :
    (0 : ℚ) ≤ (("B", (1 : ℚ)) : String × ℚ).2 ∧ (("B", (1 : ℚ)) : String × ℚ).2 ≤ 1 :=
  C8_scores_in_unit_interval exampleGraph "A" ("B", 1)
    (by
      have h : get_ric_confidence_scores exampleGraph "A" = [("B", 1), ("C", 1/2)] := by
        have h1 : sessionsWith exampleGraph "A" = ["s1", "s2"] := by decide
        have h2 : cooccurringTools exampleGraph ["s1", "s2"] "A" = ["B", "C"] := by decide
        have h3 : jointSessionCount exampleGraph ["s1", "s2"] "B" = 2 := by decide
        have h4 : jointSessionCount exampleGraph ["s1", "s2"] "C" = 1 := by decide
        rw [get_ric_confidence_scores, if_pos (by decide)]
        simp only [h1, h2, List.map_cons, List.map_nil, h3, h4]
        norm_num [byDescScore]
      rw [h]
      simp)

/-- Witness: a step with an uncatalogued lastTool applied at a concrete
input. -/
theorem C9_unknown_last_tool_witness :
    (update_recommendations (newSession ["A"] 1) (Except.ok [("A", 1)]) "X").2
      = Except.ok
          ((((update_recommendations (newSession ["A"] 1)
            (Except.ok [("A", 1)]) "X").1.session_weights).insertionSort
              byDescScore).take 5) :=
  C9_unknown_last_tool (newSession ["A"] 1) [("A", 1)] "X"
    (by decide) (by decide) (by decide)

/-- Witness: the blend-failure claim applied at a concrete input. -/
theorem C10_blend_failure_mutates_witness :
    update_recommendations (newSession ["A"] 1) (Except.ok [("Z", 1)]) "A"
      = (⟨1, decayAll (newSession ["A"] 1).session_weights 1⟩,
        Except.error (StepError.locKeyError "Z")) :=
  C10_blend_failure_mutates (newSession ["A"] 1) [] "Z" 1 [] "A"
    (by decide) (by decide)
